import Mathlib

/-!
Verification of the ring buffer of libARNetwork
(`Sources/ringBuffer.c`), shallowly embedded in Lean 4.

The buffer stores fixed-size cells in a byte region of
`numberOfCell * cellSize` bytes.  `indexInput` and `indexOutput` are
monotonically increasing byte counters; the physical offset into the
storage is always `index % (numberOfCell * cellSize)`.  Machine memory
is modelled as a total function `Nat → Nat` (byte address to byte
value); `memcpy` becomes a pointwise overwrite of a window of that
function.  The mutex only serialises operations and has no effect on
the sequential semantics modelled here, so it is omitted.
-/

/-- Modelled from the spec: the error enumeration `eNETWORK_Error` is
declared in `libNetwork/status.h`, which is not part of the sources.
The spec's error taxonomy lists the allocation, full (`BUFFER_SIZE`)
and empty kinds as distinct error kinds, alongside the success value
`NETWORK_OK`; we model the three values used by `ringBuffer.c` as
distinct constructors. -/
inductive eNETWORK_Error where
  | NETWORK_OK : eNETWORK_Error
  | NETWORK_ERROR_BUFFER_SIZE : eNETWORK_Error
  | NETWORK_ERROR_BUFFER_EMPTY : eNETWORK_Error
  deriving DecidableEq, Repr

open eNETWORK_Error

/-- The ring buffer state (`network_ringBuffer_t`, declared in
`ringBuffer.h`; its fields are read off from their uses in
`ringBuffer.c` and the spec's data model).  `dataBuffer` models the
`malloc`ed byte region as a total function from byte address to byte
value; `isOverwriting` is the C `int` flag. -/
structure network_ringBuffer_t where
  numberOfCell : Nat
  cellSize : Nat
  indexInput : Nat
  indexOutput : Nat
  isOverwriting : Int
  dataBuffer : Nat → Nat

/-- `memcpy dst+off, src, len`: the byte region with addresses
`[off, off+len)` overwritten with `src 0 .. src (len-1)`. -/
def memcpyAt (dst : Nat → Nat) (off : Nat) (src : Nat → Nat) (len : Nat) : Nat → Nat :=
  fun i => if off ≤ i ∧ i < off + len then src (i - off) else dst i

/-- The `cellSize` bytes of `b.dataBuffer` starting at byte offset `off`. -/
def readCell (b : network_ringBuffer_t) (off : Nat) : List Nat :=
  (List.range b.cellSize).map (fun t => b.dataBuffer (off + t))

/-- The first `s` bytes of a cell's source data, as a list. -/
def cellBytes (c : Nat → Nat) (s : Nat) : List Nat :=
  (List.range s).map c

/-- Modelled from the spec: `NETWORK_RingBuffGetFreeCellNb` is declared
in `ringBuffer.h` (not in the sources).  Per the spec, occupancy
queries "derive purely from `writeIndex − readIndex` versus capacity":
the number of free cells is the capacity in cells minus the number of
occupied cells. -/
def NETWORK_RingBuffGetFreeCellNb (b : network_ringBuffer_t) : Nat :=
  b.numberOfCell - (b.indexInput - b.indexOutput) / b.cellSize

/-- Modelled from the spec: `NETWORK_RingBuffIsEmpty` is declared in
`ringBuffer.h` (not in the sources).  Per the spec, the buffer is
empty exactly when `writeIndex == readIndex`. -/
def NETWORK_RingBuffIsEmpty (b : network_ringBuffer_t) : Bool :=
  b.indexInput == b.indexOutput

/-- `NETWORK_NewRingBufferWithOverwriting` (ringBuffer.c:45-71), success
path of the allocations.  `init` models the uninitialised contents of
the `malloc`ed data region. -/
def NETWORK_NewRingBufferWithOverwriting (numberOfCell cellSize : Nat)
    (isOverwriting : Int) (init : Nat → Nat) : network_ringBuffer_t :=
  { numberOfCell := numberOfCell
    cellSize := cellSize
    indexInput := 0
    indexOutput := 0
    isOverwriting := isOverwriting
    dataBuffer := init }

/-- `NETWORK_NewRingBuffer` (ringBuffer.c:39-43). -/
def NETWORK_NewRingBuffer (numberOfCell cellSize : Nat) (init : Nat → Nat) :
    network_ringBuffer_t :=
  NETWORK_NewRingBufferWithOverwriting numberOfCell cellSize 0 init

/-- `NETWORK_RingBuffPushBack` (ringBuffer.c:97-129).  Returns the error
code and the post state.  `pNewData` is the source byte region. -/
def NETWORK_RingBuffPushBack (b : network_ringBuffer_t) (pNewData : Nat → Nat) :
    eNETWORK_Error × network_ringBuffer_t :=
  if NETWORK_RingBuffGetFreeCellNb b ≠ 0 ∨ b.isOverwriting ≠ 0 then
    let b1 := if NETWORK_RingBuffGetFreeCellNb b = 0 then
                { b with indexOutput := b.indexOutput + b.cellSize }
              else b
    (NETWORK_OK,
      { b1 with
        dataBuffer :=
          memcpyAt b1.dataBuffer (b1.indexInput % (b1.numberOfCell * b1.cellSize))
            pNewData b1.cellSize
        indexInput := b1.indexInput + b1.cellSize })
  else
    (NETWORK_ERROR_BUFFER_SIZE, b)

/-- `NETWORK_RingBuffPopFront` (ringBuffer.c:131-161).  `dstSupplied`
models whether `pPopData` is non-null; the third component is the data
copied into `pPopData` (`none` when nothing is written). -/
def NETWORK_RingBuffPopFront (b : network_ringBuffer_t) (dstSupplied : Bool) :
    eNETWORK_Error × network_ringBuffer_t × Option (List Nat) :=
  if ! NETWORK_RingBuffIsEmpty b then
    ((NETWORK_OK : eNETWORK_Error),
      { b with indexOutput := b.indexOutput + b.cellSize },
      if dstSupplied then
        some (readCell b (b.indexOutput % (b.numberOfCell * b.cellSize)))
      else none)
  else
    (NETWORK_ERROR_BUFFER_EMPTY, b, none)

/-- `NETWORK_RingBuffFront` (ringBuffer.c:163-188).  The third component
is the data copied into `pFrontData` (`none` when nothing is written). -/
def NETWORK_RingBuffFront (b : network_ringBuffer_t) :
    eNETWORK_Error × network_ringBuffer_t × Option (List Nat) :=
  if ! NETWORK_RingBuffIsEmpty b then
    ((NETWORK_OK : eNETWORK_Error), b,
      some (readCell b (b.indexOutput % (b.numberOfCell * b.cellSize))))
  else
    (NETWORK_ERROR_BUFFER_SIZE, b, none)

/-- An abstract operation on the ring buffer: a push of a cell, or a
pop with or without a destination. -/
inductive ringOp where
  | push : (Nat → Nat) → ringOp
  | pop : Bool → ringOp

/-- Apply one operation, keeping only the post state. -/
def applyOp (b : network_ringBuffer_t) : ringOp → network_ringBuffer_t
  | .push c => (NETWORK_RingBuffPushBack b c).2
  | .pop d => (NETWORK_RingBuffPopFront b d).2.1

/-- Run a sequence of operations from a state. -/
def runOps (b : network_ringBuffer_t) (ops : List ringOp) : network_ringBuffer_t :=
  ops.foldl applyOp b

/-- The capacity invariant of the buffer: the occupied byte count
`indexInput - indexOutput` is nonnegative, at most the capacity, and a
multiple of `cellSize`; both indices are multiples of `cellSize`. -/
def ringInv (b : network_ringBuffer_t) : Prop :=
  b.cellSize ∣ b.indexInput ∧ b.cellSize ∣ b.indexOutput ∧
  b.indexOutput ≤ b.indexInput ∧
  b.indexInput - b.indexOutput ≤ b.numberOfCell * b.cellSize

/-- Push every cell of a list in order, collecting the error codes. -/
def pushAll (b : network_ringBuffer_t) : List (Nat → Nat) →
    List eNETWORK_Error × network_ringBuffer_t
  | [] => ([], b)
  | c :: cs =>
    let r := NETWORK_RingBuffPushBack b c
    let rest := pushAll r.2 cs
    (r.1 :: rest.1, rest.2)

/-- Pop `k` times with a destination supplied, collecting the error
codes and the popped data. -/
def popList (b : network_ringBuffer_t) : Nat →
    List (eNETWORK_Error × Option (List Nat))
  | 0 => []
  | k + 1 =>
    let r := NETWORK_RingBuffPopFront b true
    (r.1, r.2.2) :: popList r.2.1 k

/-! ### Branch lemmas for the three operations -/

/-- When at least one cell is free, `PushBack` writes the new cell at
`indexInput mod capacity` and advances `indexInput`. -/
theorem pushBack_free_ne (b : network_ringBuffer_t) (c : Nat → Nat)
    (h : NETWORK_RingBuffGetFreeCellNb b ≠ 0) :
    NETWORK_RingBuffPushBack b c =
      (NETWORK_OK,
        { b with
          dataBuffer :=
            memcpyAt b.dataBuffer (b.indexInput % (b.numberOfCell * b.cellSize))
              c b.cellSize
          indexInput := b.indexInput + b.cellSize }) := by
  simp [NETWORK_RingBuffPushBack, h]

/-- When no cell is free and the buffer is overwriting, `PushBack`
discards the oldest cell by advancing `indexOutput`, then writes and
advances `indexInput`. -/
theorem pushBack_full_ow (b : network_ringBuffer_t) (c : Nat → Nat)
    (h0 : NETWORK_RingBuffGetFreeCellNb b = 0) (how : b.isOverwriting ≠ 0) :
    NETWORK_RingBuffPushBack b c =
      (NETWORK_OK,
        { b with
          indexOutput := b.indexOutput + b.cellSize
          dataBuffer :=
            memcpyAt b.dataBuffer (b.indexInput % (b.numberOfCell * b.cellSize))
              c b.cellSize
          indexInput := b.indexInput + b.cellSize }) := by
  simp [NETWORK_RingBuffPushBack, h0, how]

/-- When no cell is free and the buffer is not overwriting, `PushBack`
reports the buffer-size error and leaves the state untouched. -/
theorem pushBack_full_noow (b : network_ringBuffer_t) (c : Nat → Nat)
    (h0 : NETWORK_RingBuffGetFreeCellNb b = 0) (how : b.isOverwriting = 0) :
    NETWORK_RingBuffPushBack b c = (NETWORK_ERROR_BUFFER_SIZE, b) := by
  simp [NETWORK_RingBuffPushBack, h0, how]

/-- `PopFront` on an empty buffer reports the buffer-empty error and
leaves the state untouched. -/
theorem popFront_empty_eq (b : network_ringBuffer_t) (dst : Bool)
    (h : b.indexInput = b.indexOutput) :
    NETWORK_RingBuffPopFront b dst = (NETWORK_ERROR_BUFFER_EMPTY, b, none) := by
  simp [NETWORK_RingBuffPopFront, NETWORK_RingBuffIsEmpty, h]

/-- `PopFront` on a non-empty buffer advances `indexOutput` and copies
the front cell exactly when a destination is supplied. -/
theorem popFront_nonempty_eq (b : network_ringBuffer_t) (dst : Bool)
    (h : b.indexInput ≠ b.indexOutput) :
    NETWORK_RingBuffPopFront b dst =
      (NETWORK_OK, { b with indexOutput := b.indexOutput + b.cellSize },
        if dst then
          some (readCell b (b.indexOutput % (b.numberOfCell * b.cellSize)))
        else none) := by
  simp [NETWORK_RingBuffPopFront, NETWORK_RingBuffIsEmpty, h]

/-- `Front` on an empty buffer reports the buffer-size error, copies
nothing, and leaves the state untouched. -/
theorem front_empty_eq (b : network_ringBuffer_t)
    (h : b.indexInput = b.indexOutput) :
    NETWORK_RingBuffFront b = (NETWORK_ERROR_BUFFER_SIZE, b, none) := by
  simp [NETWORK_RingBuffFront, NETWORK_RingBuffIsEmpty, h]

/-- `Front` on a non-empty buffer copies the front cell and leaves the
state untouched. -/
theorem front_nonempty_eq (b : network_ringBuffer_t)
    (h : b.indexInput ≠ b.indexOutput) :
    NETWORK_RingBuffFront b =
      (NETWORK_OK, b,
        some (readCell b (b.indexOutput % (b.numberOfCell * b.cellSize)))) := by
  simp [NETWORK_RingBuffFront, NETWORK_RingBuffIsEmpty, h]

/-! ### Sample states used by the witnesses -/

/-- A freshly constructed (empty) two-cell buffer with 4-byte cells. -/
def bufEmpty : network_ringBuffer_t :=
  NETWORK_NewRingBufferWithOverwriting 2 4 0 (fun i => i)

/-- A two-cell buffer with 4-byte cells holding one cell (bytes 1..4). -/
def bufOne : network_ringBuffer_t :=
  { numberOfCell := 2, cellSize := 4, indexInput := 4, indexOutput := 0,
    isOverwriting := 0, dataBuffer := fun i => i + 1 }

/-! ### Claim theorems -/

/-- C5: `PopFront` on an empty buffer (`writeIndex == readIndex`)
reports `BUFFER_EMPTY` and mutates nothing; on a non-empty buffer it
succeeds, advances `readIndex` by `cellSize`, and copies the
`cellSize` bytes at physical offset `readIndex mod capacity` exactly
when a destination is supplied — `readIndex` advances even with a null
destination. -/
theorem popFront_semantics (b : network_ringBuffer_t) (dst : Bool) :
    (b.indexInput = b.indexOutput →
      NETWORK_RingBuffPopFront b dst = (NETWORK_ERROR_BUFFER_EMPTY, b, none)) ∧
    (b.indexInput ≠ b.indexOutput →
      NETWORK_RingBuffPopFront b dst =
        (NETWORK_OK, { b with indexOutput := b.indexOutput + b.cellSize },
          if dst then
            some (readCell b (b.indexOutput % (b.numberOfCell * b.cellSize)))
          else none)) :=
  ⟨popFront_empty_eq b dst, popFront_nonempty_eq b dst⟩

/-- Witness for C5: popping `bufOne` with a null destination succeeds
and advances `readIndex` without copying anything. -/
theorem popFront_semantics_witness :
    NETWORK_RingBuffPopFront bufOne false =
      (NETWORK_OK, { bufOne with indexOutput := bufOne.indexOutput + bufOne.cellSize },
        if false then
          some (readCell bufOne (bufOne.indexOutput % (bufOne.numberOfCell * bufOne.cellSize)))
        else none) :=
  (popFront_semantics bufOne false).2 (by decide)

/-- C6 counterexample: `Front` on a freshly constructed (empty) buffer
returns `NETWORK_ERROR_BUFFER_SIZE`, not the buffer-empty error kind
claimed. -/
theorem front_empty_error_kind_cex :
    (NETWORK_RingBuffFront bufEmpty).1 = NETWORK_ERROR_BUFFER_SIZE ∧
    (NETWORK_RingBuffFront bufEmpty).1 ≠ NETWORK_ERROR_BUFFER_EMPTY := by
  decide

/-- C6 (amended): `Front` on an empty buffer returns the
`BUFFER_SIZE` error kind (the same code `PushBack` uses for a full
buffer, distinct from `BUFFER_EMPTY`), writes nothing to the output,
and leaves the whole state unchanged. -/
theorem front_empty_returns_buffer_size (b : network_ringBuffer_t)
    (h : b.indexInput = b.indexOutput) :
    NETWORK_RingBuffFront b = (NETWORK_ERROR_BUFFER_SIZE, b, none) ∧
    NETWORK_ERROR_BUFFER_SIZE ≠ NETWORK_ERROR_BUFFER_EMPTY :=
  ⟨front_empty_eq b h, by decide⟩

/-- Witness for C6 (amended): `Front` on the fresh empty buffer. -/
theorem front_empty_returns_buffer_size_witness :
    NETWORK_RingBuffFront bufEmpty = (NETWORK_ERROR_BUFFER_SIZE, bufEmpty, none) ∧
    NETWORK_ERROR_BUFFER_SIZE ≠ NETWORK_ERROR_BUFFER_EMPTY :=
  front_empty_returns_buffer_size bufEmpty (by decide)

/-- C7: `Front` on a non-empty buffer copies the oldest cell (the
`cellSize` bytes at physical offset `readIndex mod capacity`) and
leaves the state unchanged; hence repeating `Front` returns the same
result and a subsequent `PopFront` is unaffected. -/
theorem front_nonempty_peek (b : network_ringBuffer_t)
    (h : b.indexInput ≠ b.indexOutput) :
    NETWORK_RingBuffFront b =
      (NETWORK_OK, b,
        some (readCell b (b.indexOutput % (b.numberOfCell * b.cellSize)))) ∧
    NETWORK_RingBuffFront (NETWORK_RingBuffFront b).2.1 = NETWORK_RingBuffFront b ∧
    (∀ dst, NETWORK_RingBuffPopFront (NETWORK_RingBuffFront b).2.1 dst =
      NETWORK_RingBuffPopFront b dst) := by
  have he := front_nonempty_eq b h
  have h21 : (NETWORK_RingBuffFront b).2.1 = b := by rw [he]
  exact ⟨he, by rw [h21], fun dst => by rw [h21]⟩

/-- Witness for C7: peeking at `bufOne`. -/
theorem front_nonempty_peek_witness :
    NETWORK_RingBuffFront bufOne =
      (NETWORK_OK, bufOne,
        some (readCell bufOne (bufOne.indexOutput % (bufOne.numberOfCell * bufOne.cellSize)))) ∧
    NETWORK_RingBuffFront (NETWORK_RingBuffFront bufOne).2.1 =
      NETWORK_RingBuffFront bufOne ∧
    (∀ dst, NETWORK_RingBuffPopFront (NETWORK_RingBuffFront bufOne).2.1 dst =
      NETWORK_RingBuffPopFront bufOne dst) :=
  front_nonempty_peek bufOne (by decide)

/-- C9: construction validates nothing: for every `numberOfCell` and
`cellSize` (zero included), the successfully allocating constructor
returns a buffer recording exactly the given parameters, with both
indices zero and the given overwrite flag and data region. -/
theorem newRingBuffer_records_params (n s : Nat) (ow : Int) (init : Nat → Nat) :
    (NETWORK_NewRingBufferWithOverwriting n s ow init).numberOfCell = n ∧
    (NETWORK_NewRingBufferWithOverwriting n s ow init).cellSize = s ∧
    (NETWORK_NewRingBufferWithOverwriting n s ow init).indexInput = 0 ∧
    (NETWORK_NewRingBufferWithOverwriting n s ow init).indexOutput = 0 ∧
    (NETWORK_NewRingBufferWithOverwriting n s ow init).isOverwriting = ow ∧
    (NETWORK_NewRingBufferWithOverwriting n s ow init).dataBuffer = init :=
  ⟨rfl, rfl, rfl, rfl, rfl, rfl⟩

/-- C10: the plain constructor is the overwriting constructor
specialised to a false (zero) overwrite flag. -/
theorem newRingBuffer_is_overwriting_with_zero (n s : Nat) (init : Nat → Nat) :
    NETWORK_NewRingBuffer n s init =
      NETWORK_NewRingBufferWithOverwriting n s 0 init :=
  rfl

/-- Test cells used in the concrete scenarios. -/
def cellA : Nat → Nat := fun t => 10 + t

/-- Second test cell. -/
def cellB : Nat → Nat := fun t => 20 + t

/-- Third test cell. -/
def cellC : Nat → Nat := fun t => 30 + t

/-- The non-overwriting 2-cell, 4-byte buffer after pushing `cellA`
then `cellB` (a full buffer). -/
def buf24AB : network_ringBuffer_t :=
  (pushAll (NETWORK_NewRingBuffer 2 4 (fun _ => 0)) [cellA, cellB]).2

/-- A full one-cell overwriting buffer. -/
def bufOW : network_ringBuffer_t :=
  { numberOfCell := 1, cellSize := 2, indexInput := 2, indexOutput := 0,
    isOverwriting := 1, dataBuffer := fun _ => 9 }

/-- A full buffer has no free cell. -/
theorem freeCellNb_eq_zero_of_full (b : network_ringBuffer_t)
    (hs : 0 < b.cellSize)
    (hfull : b.indexInput - b.indexOutput = b.numberOfCell * b.cellSize) :
    NETWORK_RingBuffGetFreeCellNb b = 0 := by
  unfold NETWORK_RingBuffGetFreeCellNb
  rw [hfull, Nat.mul_div_cancel _ hs]
  exact Nat.sub_self _

/-- C3: on a full non-overwriting buffer, `PushBack` returns the
buffer-size (full) error and changes nothing at all; concretely, with
`cellCount=2`, `cellSize=4`, two pushes succeed, the third is rejected,
and the original two cells are still popped in order. -/
theorem pushBack_full_reject_spec :
    (∀ (b : network_ringBuffer_t) (c : Nat → Nat),
      0 < b.cellSize → b.isOverwriting = 0 →
      b.indexInput - b.indexOutput = b.numberOfCell * b.cellSize →
      NETWORK_RingBuffPushBack b c = (NETWORK_ERROR_BUFFER_SIZE, b)) ∧
    (pushAll (NETWORK_NewRingBuffer 2 4 (fun _ => 0)) [cellA, cellB]).1 =
      [NETWORK_OK, NETWORK_OK] ∧
    (NETWORK_RingBuffPushBack buf24AB cellC).1 = NETWORK_ERROR_BUFFER_SIZE ∧
    popList (NETWORK_RingBuffPushBack buf24AB cellC).2 2 =
      [(NETWORK_OK, some [10, 11, 12, 13]), (NETWORK_OK, some [20, 21, 22, 23])] := by
  refine ⟨fun b c hs how hfull => ?_, by decide, by decide, by decide⟩
  exact pushBack_full_noow b c (freeCellNb_eq_zero_of_full b hs hfull) how

/-- Witness for C3: the third push onto the full buffer `buf24AB` is
rejected with the state returned untouched. -/
theorem pushBack_full_reject_spec_witness :
    NETWORK_RingBuffPushBack buf24AB cellC = (NETWORK_ERROR_BUFFER_SIZE, buf24AB) :=
  pushBack_full_reject_spec.1 buf24AB cellC (by decide) (by decide) (by decide)

/-- C4: on a full overwriting buffer, `PushBack` succeeds, advancing
`readIndex` by `cellSize` (discarding the oldest cell), writing the new
cell at physical offset `writeIndex mod capacity` and advancing
`writeIndex` by `cellSize`; concretely, with capacity 2 cells, pushing
cells A, B, C and then popping twice yields cells B and C in order. -/
theorem pushBack_overwrite_spec :
    (∀ (b : network_ringBuffer_t) (c : Nat → Nat),
      0 < b.cellSize → b.isOverwriting ≠ 0 →
      b.indexInput - b.indexOutput = b.numberOfCell * b.cellSize →
      NETWORK_RingBuffPushBack b c =
        (NETWORK_OK,
          { b with
            indexOutput := b.indexOutput + b.cellSize
            dataBuffer :=
              memcpyAt b.dataBuffer (b.indexInput % (b.numberOfCell * b.cellSize))
                c b.cellSize
            indexInput := b.indexInput + b.cellSize })) ∧
    (pushAll (NETWORK_NewRingBufferWithOverwriting 2 4 1 (fun _ => 0))
        [cellA, cellB, cellC]).1 = [NETWORK_OK, NETWORK_OK, NETWORK_OK] ∧
    popList (pushAll (NETWORK_NewRingBufferWithOverwriting 2 4 1 (fun _ => 0))
        [cellA, cellB, cellC]).2 2 =
      [(NETWORK_OK, some [20, 21, 22, 23]), (NETWORK_OK, some [30, 31, 32, 33])] := by
  refine ⟨fun b c hs how hfull => ?_, by decide, by decide⟩
  exact pushBack_full_ow b c (freeCellNb_eq_zero_of_full b hs hfull) how

/-- Witness for C4: pushing onto the full overwriting buffer `bufOW`. -/
theorem pushBack_overwrite_spec_witness :
    NETWORK_RingBuffPushBack bufOW cellA =
      (NETWORK_OK,
        { bufOW with
          indexOutput := bufOW.indexOutput + bufOW.cellSize
          dataBuffer :=
            memcpyAt bufOW.dataBuffer (bufOW.indexInput % (bufOW.numberOfCell * bufOW.cellSize))
              cellA bufOW.cellSize
          indexInput := bufOW.indexInput + bufOW.cellSize }) :=
  pushBack_overwrite_spec.1 bufOW cellA (by decide) (by decide) (by decide)

/-- Bytes outside the copied window are untouched by `memcpy`. -/
theorem memcpyAt_outside (d : Nat → Nat) (off : Nat) (src : Nat → Nat)
    (len i : Nat) (h : i < off ∨ off + len ≤ i) :
    memcpyAt d off src len i = d i := by
  unfold memcpyAt
  rw [if_neg (by omega)]

/-- Bytes inside the copied window come from the source. -/
theorem memcpyAt_inside (d : Nat → Nat) (off : Nat) (src : Nat → Nat)
    (len j : Nat) (h : j < len) :
    memcpyAt d off src len (off + j) = src j := by
  unfold memcpyAt
  rw [if_pos (by omega)]
  congr 1
  omega

/-- `PushBack` never decreases `indexInput`. -/
theorem pushBack_indexInput_mono (b : network_ringBuffer_t) (c : Nat → Nat) :
    b.indexInput ≤ (NETWORK_RingBuffPushBack b c).2.indexInput := by
  by_cases hf : NETWORK_RingBuffGetFreeCellNb b = 0
  · by_cases hw : b.isOverwriting = 0
    · rw [pushBack_full_noow b c hf hw]
    · rw [pushBack_full_ow b c hf hw]
      exact Nat.le_add_right _ _
  · rw [pushBack_free_ne b c hf]
    exact Nat.le_add_right _ _

/-- `PushBack` never decreases `indexOutput`. -/
theorem pushBack_indexOutput_mono (b : network_ringBuffer_t) (c : Nat → Nat) :
    b.indexOutput ≤ (NETWORK_RingBuffPushBack b c).2.indexOutput := by
  by_cases hf : NETWORK_RingBuffGetFreeCellNb b = 0
  · by_cases hw : b.isOverwriting = 0
    · rw [pushBack_full_noow b c hf hw]
    · rw [pushBack_full_ow b c hf hw]
      exact Nat.le_add_right _ _
  · rw [pushBack_free_ne b c hf]

/-- A successful `PushBack` advances `indexInput` by exactly `cellSize`. -/
theorem pushBack_ok_indexInput (b : network_ringBuffer_t) (c : Nat → Nat)
    (h : (NETWORK_RingBuffPushBack b c).1 = NETWORK_OK) :
    (NETWORK_RingBuffPushBack b c).2.indexInput = b.indexInput + b.cellSize := by
  by_cases hf : NETWORK_RingBuffGetFreeCellNb b = 0
  · by_cases hw : b.isOverwriting = 0
    · rw [pushBack_full_noow b c hf hw] at h
      simp at h
    · rw [pushBack_full_ow b c hf hw]
  · rw [pushBack_free_ne b c hf]

/-- A failed `PushBack` returns the state untouched. -/
theorem pushBack_err_eq (b : network_ringBuffer_t) (c : Nat → Nat)
    (h : (NETWORK_RingBuffPushBack b c).1 ≠ NETWORK_OK) :
    (NETWORK_RingBuffPushBack b c).2 = b := by
  by_cases hf : NETWORK_RingBuffGetFreeCellNb b = 0
  · by_cases hw : b.isOverwriting = 0
    · rw [pushBack_full_noow b c hf hw]
    · rw [pushBack_full_ow b c hf hw] at h
      exact absurd rfl h
  · rw [pushBack_free_ne b c hf] at h
    exact absurd rfl h

/-- `PushBack` touches the storage only inside the window that starts
at physical offset `indexInput mod capacity`. -/
theorem pushBack_frame (b : network_ringBuffer_t) (c : Nat → Nat) (i : Nat)
    (h : i < b.indexInput % (b.numberOfCell * b.cellSize) ∨
      b.indexInput % (b.numberOfCell * b.cellSize) + b.cellSize ≤ i) :
    (NETWORK_RingBuffPushBack b c).2.dataBuffer i = b.dataBuffer i := by
  by_cases hf : NETWORK_RingBuffGetFreeCellNb b = 0
  · by_cases hw : b.isOverwriting = 0
    · rw [pushBack_full_noow b c hf hw]
    · rw [pushBack_full_ow b c hf hw]
      exact memcpyAt_outside _ _ _ _ _ h
  · rw [pushBack_free_ne b c hf]
    exact memcpyAt_outside _ _ _ _ _ h

/-- A successful `PushBack` stores the new cell's bytes at physical
offset `indexInput mod capacity`. -/
theorem pushBack_writes (b : network_ringBuffer_t) (c : Nat → Nat)
    (h : (NETWORK_RingBuffPushBack b c).1 = NETWORK_OK) (j : Nat)
    (hj : j < b.cellSize) :
    (NETWORK_RingBuffPushBack b c).2.dataBuffer
      (b.indexInput % (b.numberOfCell * b.cellSize) + j) = c j := by
  by_cases hf : NETWORK_RingBuffGetFreeCellNb b = 0
  · by_cases hw : b.isOverwriting = 0
    · rw [pushBack_full_noow b c hf hw] at h
      simp at h
    · rw [pushBack_full_ow b c hf hw]
      exact memcpyAt_inside _ _ _ _ _ hj
  · rw [pushBack_free_ne b c hf]
    exact memcpyAt_inside _ _ _ _ _ hj

/-- `PopFront` never changes `indexInput`. -/
theorem popFront_indexInput_eq (b : network_ringBuffer_t) (dst : Bool) :
    (NETWORK_RingBuffPopFront b dst).2.1.indexInput = b.indexInput := by
  by_cases he : b.indexInput = b.indexOutput
  · rw [popFront_empty_eq b dst he]
  · rw [popFront_nonempty_eq b dst he]

/-- `PopFront` never decreases `indexOutput`. -/
theorem popFront_indexOutput_mono (b : network_ringBuffer_t) (dst : Bool) :
    b.indexOutput ≤ (NETWORK_RingBuffPopFront b dst).2.1.indexOutput := by
  by_cases he : b.indexInput = b.indexOutput
  · rw [popFront_empty_eq b dst he]
  · rw [popFront_nonempty_eq b dst he]
    exact Nat.le_add_right _ _

/-- A successful `PopFront` advances `indexOutput` by exactly `cellSize`. -/
theorem popFront_ok_indexOutput (b : network_ringBuffer_t) (dst : Bool)
    (h : (NETWORK_RingBuffPopFront b dst).1 = NETWORK_OK) :
    (NETWORK_RingBuffPopFront b dst).2.1.indexOutput =
      b.indexOutput + b.cellSize := by
  by_cases he : b.indexInput = b.indexOutput
  · rw [popFront_empty_eq b dst he] at h
    simp at h
  · rw [popFront_nonempty_eq b dst he]

/-- A successful `PopFront` with a destination reads the cell at
physical offset `indexOutput mod capacity`. -/
theorem popFront_ok_data (b : network_ringBuffer_t) (dst : Bool)
    (h : (NETWORK_RingBuffPopFront b dst).1 = NETWORK_OK) (hd : dst = true) :
    (NETWORK_RingBuffPopFront b dst).2.2 =
      some (readCell b (b.indexOutput % (b.numberOfCell * b.cellSize))) := by
  by_cases he : b.indexInput = b.indexOutput
  · rw [popFront_empty_eq b dst he] at h
    simp at h
  · rw [popFront_nonempty_eq b dst he]
    simp [hd]

/-- C8: the indices are monotonically non-decreasing counters that are
never wrapped directly: `PushBack` leaves `readIndex` unchanged or
larger and, on success, advances `writeIndex` by exactly `cellSize`
(restoring the state untouched on failure); `PopFront` leaves
`writeIndex` unchanged and, on success, advances `readIndex` by exactly
`cellSize`; and every storage access goes through the physical offset
`index mod (cellCount * cellSize)`: a push only writes the window at
`writeIndex mod capacity` and a pop reads the cell at
`readIndex mod capacity`. -/
theorem pushPop_index_discipline (b : network_ringBuffer_t) (c : Nat → Nat)
    (dst : Bool) :
    b.indexInput ≤ (NETWORK_RingBuffPushBack b c).2.indexInput ∧
    b.indexOutput ≤ (NETWORK_RingBuffPushBack b c).2.indexOutput ∧
    ((NETWORK_RingBuffPushBack b c).1 = NETWORK_OK →
      (NETWORK_RingBuffPushBack b c).2.indexInput = b.indexInput + b.cellSize) ∧
    ((NETWORK_RingBuffPushBack b c).1 ≠ NETWORK_OK →
      (NETWORK_RingBuffPushBack b c).2 = b) ∧
    (∀ i, i < b.indexInput % (b.numberOfCell * b.cellSize) ∨
        b.indexInput % (b.numberOfCell * b.cellSize) + b.cellSize ≤ i →
      (NETWORK_RingBuffPushBack b c).2.dataBuffer i = b.dataBuffer i) ∧
    ((NETWORK_RingBuffPushBack b c).1 = NETWORK_OK → ∀ j, j < b.cellSize →
      (NETWORK_RingBuffPushBack b c).2.dataBuffer
        (b.indexInput % (b.numberOfCell * b.cellSize) + j) = c j) ∧
    (NETWORK_RingBuffPopFront b dst).2.1.indexInput = b.indexInput ∧
    b.indexOutput ≤ (NETWORK_RingBuffPopFront b dst).2.1.indexOutput ∧
    ((NETWORK_RingBuffPopFront b dst).1 = NETWORK_OK →
      (NETWORK_RingBuffPopFront b dst).2.1.indexOutput =
        b.indexOutput + b.cellSize) ∧
    ((NETWORK_RingBuffPopFront b dst).1 = NETWORK_OK → dst = true →
      (NETWORK_RingBuffPopFront b dst).2.2 =
        some (readCell b (b.indexOutput % (b.numberOfCell * b.cellSize)))) :=
  ⟨pushBack_indexInput_mono b c, pushBack_indexOutput_mono b c,
    pushBack_ok_indexInput b c, pushBack_err_eq b c,
    fun i h => pushBack_frame b c i h,
    fun h j hj => pushBack_writes b c h j hj,
    popFront_indexInput_eq b dst, popFront_indexOutput_mono b dst,
    popFront_ok_indexOutput b dst, popFront_ok_data b dst⟩

/-- Witness for C8: a successful push onto and a successful pop from
the one-cell-occupied buffer `bufOne` advance the respective index by
one cell, and the pop reads the front cell through the wrapped offset. -/
theorem pushPop_index_discipline_witness :
    (NETWORK_RingBuffPushBack bufOne cellA).2.indexInput =
      bufOne.indexInput + bufOne.cellSize ∧
    (NETWORK_RingBuffPopFront bufOne true).2.1.indexOutput =
      bufOne.indexOutput + bufOne.cellSize ∧
    (NETWORK_RingBuffPopFront bufOne true).2.2 =
      some (readCell bufOne (bufOne.indexOutput % (bufOne.numberOfCell * bufOne.cellSize))) := by
  have h := pushPop_index_discipline bufOne cellA true
  exact ⟨h.2.2.1 (by decide), h.2.2.2.2.2.2.2.2.1 (by decide),
    h.2.2.2.2.2.2.2.2.2 (by decide) rfl⟩

/-- The capacity parameters and the overwrite flag are immutable under
any single operation. -/
theorem applyOp_const (b : network_ringBuffer_t) (op : ringOp) :
    (applyOp b op).numberOfCell = b.numberOfCell ∧
    (applyOp b op).cellSize = b.cellSize ∧
    (applyOp b op).isOverwriting = b.isOverwriting := by
  cases op with
  | push c =>
    by_cases hf : NETWORK_RingBuffGetFreeCellNb b = 0
    · by_cases hw : b.isOverwriting = 0
      · simp only [applyOp, pushBack_full_noow b c hf hw]
        exact ⟨trivial, trivial, trivial⟩
      · simp only [applyOp, pushBack_full_ow b c hf hw]
        exact ⟨trivial, trivial, trivial⟩
    · simp only [applyOp, pushBack_free_ne b c hf]
      exact ⟨trivial, trivial, trivial⟩
  | pop d =>
    by_cases he : b.indexInput = b.indexOutput
    · simp only [applyOp, popFront_empty_eq b d he]
      exact ⟨trivial, trivial, trivial⟩
    · simp only [applyOp, popFront_nonempty_eq b d he]
      exact ⟨trivial, trivial, trivial⟩

/-- The capacity invariant is preserved by every single operation. -/
theorem ringInv_applyOp (b : network_ringBuffer_t) (op : ringOp)
    (hs : 0 < b.cellSize) (h : ringInv b) : ringInv (applyOp b op) := by
  obtain ⟨hdi, hdo, hoi, hcap⟩ := h
  cases op with
  | push c =>
    by_cases hf : NETWORK_RingBuffGetFreeCellNb b = 0
    · by_cases hw : b.isOverwriting = 0
      · simp only [applyOp, pushBack_full_noow b c hf hw]
        exact ⟨hdi, hdo, hoi, hcap⟩
      · simp only [applyOp, pushBack_full_ow b c hf hw]
        refine ⟨Dvd.dvd.add hdi dvd_rfl, Dvd.dvd.add hdo dvd_rfl,
          Nat.add_le_add_right hoi _, ?_⟩
        show b.indexInput + b.cellSize - (b.indexOutput + b.cellSize) ≤
          b.numberOfCell * b.cellSize
        rw [Nat.add_sub_add_right]
        exact hcap
    · simp only [applyOp, pushBack_free_ne b c hf]
      obtain ⟨e, he⟩ : b.cellSize ∣ (b.indexInput - b.indexOutput) :=
        Nat.dvd_sub' hdi hdo
      have hq : e < b.numberOfCell := by
        have h2 : NETWORK_RingBuffGetFreeCellNb b ≠ 0 := hf
        unfold NETWORK_RingBuffGetFreeCellNb at h2
        rw [he, Nat.mul_div_cancel_left _ hs] at h2
        omega
      refine ⟨Dvd.dvd.add hdi dvd_rfl, hdo,
        le_trans hoi (Nat.le_add_right _ _), ?_⟩
      show b.indexInput + b.cellSize - b.indexOutput ≤
        b.numberOfCell * b.cellSize
      rw [Nat.sub_add_comm hoi, he]
      refine le_trans (le_of_eq (Nat.mul_succ b.cellSize e).symm) ?_
      refine le_trans (Nat.mul_le_mul_left _ hq) ?_
      exact le_of_eq (Nat.mul_comm _ _)
  | pop d =>
    by_cases hemp : b.indexInput = b.indexOutput
    · simp only [applyOp, popFront_empty_eq b d hemp]
      exact ⟨hdi, hdo, hoi, hcap⟩
    · simp only [applyOp, popFront_nonempty_eq b d hemp]
      obtain ⟨e, he⟩ : b.cellSize ∣ (b.indexInput - b.indexOutput) :=
        Nat.dvd_sub' hdi hdo
      have hpos : 0 < e := by
        rcases Nat.eq_zero_or_pos e with h0 | h0
        · rw [h0, Nat.mul_zero] at he
          omega
        · exact h0
      have hse : b.cellSize ≤ b.indexInput - b.indexOutput := by
        rw [he]
        conv_lhs => rw [← Nat.mul_one b.cellSize]
        exact Nat.mul_le_mul_left _ hpos
      refine ⟨hdi, Dvd.dvd.add hdo dvd_rfl, ?_, ?_⟩
      · show b.indexOutput + b.cellSize ≤ b.indexInput
        omega
      · show b.indexInput - (b.indexOutput + b.cellSize) ≤
          b.numberOfCell * b.cellSize
        exact le_trans (by omega) hcap

/-- The capacity parameters and the overwrite flag are immutable under
any sequence of operations. -/
theorem runOps_const (ops : List ringOp) : ∀ (b : network_ringBuffer_t),
    (runOps b ops).numberOfCell = b.numberOfCell ∧
    (runOps b ops).cellSize = b.cellSize ∧
    (runOps b ops).isOverwriting = b.isOverwriting := by
  induction ops with
  | nil => exact fun b => ⟨rfl, rfl, rfl⟩
  | cons op rest ih =>
    intro b
    have h1 := applyOp_const b op
    have h2 := ih (applyOp b op)
    exact ⟨h2.1.trans h1.1, h2.2.1.trans h1.2.1, h2.2.2.trans h1.2.2⟩

/-- The capacity invariant is preserved by every sequence of operations. -/
theorem runOps_inv (ops : List ringOp) : ∀ (b : network_ringBuffer_t),
    0 < b.cellSize → ringInv b → ringInv (runOps b ops) := by
  induction ops with
  | nil => exact fun b _ h => h
  | cons op rest ih =>
    intro b hs h
    refine ih (applyOp b op) ?_ (ringInv_applyOp b op hs h)
    rw [(applyOp_const b op).2.1]
    exact hs

/-- The occupied byte count `writeIndex - readIndex`, as an integer. -/
def occupiedZ (b : network_ringBuffer_t) : ℤ :=
  (b.indexInput : ℤ) - (b.indexOutput : ℤ)

/-- C1: for every buffer constructed with positive `cellCount` and
`cellSize` and every finite sequence of pushes and pops from the fresh
state, the occupied byte count `writeIndex - readIndex` stays between
`0` and `cellCount * cellSize` and is a multiple of `cellSize` (every
prefix of a sequence being itself a sequence, this holds after every
operation). -/
theorem ringBuffer_capacity_invariant (n s : Nat) (ow : Int)
    (init : Nat → Nat) (ops : List ringOp) (hn : 0 < n) (hs : 0 < s) :
    0 ≤ occupiedZ (runOps (NETWORK_NewRingBufferWithOverwriting n s ow init) ops) ∧
    occupiedZ (runOps (NETWORK_NewRingBufferWithOverwriting n s ow init) ops) ≤
      (n : ℤ) * (s : ℤ) ∧
    (s : ℤ) ∣
      occupiedZ (runOps (NETWORK_NewRingBufferWithOverwriting n s ow init) ops) := by
  have hinv0 : ringInv (NETWORK_NewRingBufferWithOverwriting n s ow init) :=
    ⟨dvd_zero _, dvd_zero _, le_refl _, Nat.zero_le _⟩
  have hf := runOps_inv ops (NETWORK_NewRingBufferWithOverwriting n s ow init)
    hs hinv0
  have hfields := runOps_const ops (NETWORK_NewRingBufferWithOverwriting n s ow init)
  obtain ⟨hdi, hdo, hoi, hcap⟩ := hf
  rw [hfields.1, hfields.2.1] at hcap
  rw [hfields.2.1] at hdi hdo
  refine ⟨?_, ?_, ?_⟩
  · unfold occupiedZ
    omega
  · unfold occupiedZ
    calc ((runOps (NETWORK_NewRingBufferWithOverwriting n s ow init) ops).indexInput : ℤ) -
        ((runOps (NETWORK_NewRingBufferWithOverwriting n s ow init) ops).indexOutput : ℤ) =
        (((runOps (NETWORK_NewRingBufferWithOverwriting n s ow init) ops).indexInput -
          (runOps (NETWORK_NewRingBufferWithOverwriting n s ow init) ops).indexOutput : ℕ) : ℤ) := by
          omega
      _ ≤ ((n * s : ℕ) : ℤ) := Int.ofNat_le.mpr hcap
      _ = (n : ℤ) * (s : ℤ) := by push_cast; ring
  · unfold occupiedZ
    exact dvd_sub (Int.natCast_dvd_natCast.mpr hdi) (Int.natCast_dvd_natCast.mpr hdo)

/-- Witness for C1: a push followed by a pop on a fresh 2-cell,
4-byte buffer. -/
theorem ringBuffer_capacity_invariant_witness :
    0 ≤ occupiedZ (runOps (NETWORK_NewRingBufferWithOverwriting 2 4 0 (fun _ => 0))
      [ringOp.push cellA, ringOp.pop true]) ∧
    occupiedZ (runOps (NETWORK_NewRingBufferWithOverwriting 2 4 0 (fun _ => 0))
      [ringOp.push cellA, ringOp.pop true]) ≤ (2 : ℤ) * (4 : ℤ) ∧
    (4 : ℤ) ∣ occupiedZ (runOps (NETWORK_NewRingBufferWithOverwriting 2 4 0 (fun _ => 0))
      [ringOp.push cellA, ringOp.pop true]) :=
  ringBuffer_capacity_invariant 2 4 0 (fun _ => 0)
    [ringOp.push cellA, ringOp.pop true] (by decide) (by decide)

/-- A cell-aligned offset strictly inside the capacity is its own
physical offset. -/
theorem mul_mod_capacity (k n s : Nat) (hk : k < n) (hs : 0 < s) :
    k * s % (n * s) = k * s :=
  Nat.mod_eq_of_lt (lt_of_lt_of_le (Nat.lt_add_of_pos_right hs)
    (by rw [← Nat.succ_mul]; exact Nat.mul_le_mul_right s hk))

/-- Pushing a list of cells into a buffer whose write window has not
yet wrapped (`indexOutput = 0`, `indexInput = k * cellSize`, all cells
fitting in the capacity) succeeds for every cell, advances `indexInput`
cell by cell, and lays the cells out contiguously starting at byte
offset `k * cellSize`, leaving earlier bytes untouched. -/
theorem pushAll_spec (cs : List (Nat → Nat)) :
    ∀ (b : network_ringBuffer_t) (k : Nat),
    0 < b.cellSize → b.indexOutput = 0 → b.indexInput = k * b.cellSize →
    k + cs.length ≤ b.numberOfCell →
    (pushAll b cs).1 = List.replicate cs.length NETWORK_OK ∧
    (pushAll b cs).2.numberOfCell = b.numberOfCell ∧
    (pushAll b cs).2.cellSize = b.cellSize ∧
    (pushAll b cs).2.indexOutput = 0 ∧
    (pushAll b cs).2.indexInput = (k + cs.length) * b.cellSize ∧
    (∀ i, i < k * b.cellSize → (pushAll b cs).2.dataBuffer i = b.dataBuffer i) ∧
    (∀ j (hj : j < cs.length) t, t < b.cellSize →
      (pushAll b cs).2.dataBuffer ((k + j) * b.cellSize + t) =
        cs.get ⟨j, hj⟩ t) := by
  induction cs with
  | nil =>
    intro b k hs hout hin hcap
    refine ⟨rfl, rfl, rfl, hout, ?_, fun i _ => rfl,
      fun j hj => absurd hj (by simp)⟩
    simpa using hin
  | cons c cs ih =>
    intro b k hs hout hin hcap
    have hk : k < b.numberOfCell := by
      simp only [List.length_cons] at hcap
      omega
    have hfree : NETWORK_RingBuffGetFreeCellNb b ≠ 0 := by
      unfold NETWORK_RingBuffGetFreeCellNb
      rw [hout, hin, Nat.sub_zero, Nat.mul_div_cancel _ hs]
      omega
    have hpush := pushBack_free_ne b c hfree
    have hmod : b.indexInput % (b.numberOfCell * b.cellSize) = k * b.cellSize := by
      rw [hin]
      exact mul_mod_capacity k _ _ hk hs
    simp only [pushAll, hpush, List.length_cons]
    set B1 : network_ringBuffer_t :=
      { b with
        dataBuffer :=
          memcpyAt b.dataBuffer (b.indexInput % (b.numberOfCell * b.cellSize))
            c b.cellSize
        indexInput := b.indexInput + b.cellSize } with hB1
    have hin1 : B1.indexInput = (k + 1) * B1.cellSize := by
      show b.indexInput + b.cellSize = (k + 1) * b.cellSize
      rw [hin, Nat.succ_mul]
    have ihh := ih B1 (k + 1) hs hout hin1 (by
      show k + 1 + cs.length ≤ b.numberOfCell
      simp only [List.length_cons] at hcap
      omega)
    refine ⟨?_, ihh.2.1, ihh.2.2.1, ihh.2.2.2.1, ?_, ?_, ?_⟩
    · rw [ihh.1, List.replicate_succ]
    · rw [ihh.2.2.2.2.1]
      show (k + 1 + cs.length) * b.cellSize = (k + (cs.length + 1)) * b.cellSize
      congr 1
      omega
    · intro i hi
      have h6 := ihh.2.2.2.2.2.1 i
        (lt_of_lt_of_le hi (Nat.mul_le_mul_right _ (Nat.le_succ k)))
      rw [h6]
      show memcpyAt b.dataBuffer (b.indexInput % (b.numberOfCell * b.cellSize))
        c b.cellSize i = b.dataBuffer i
      rw [hmod]
      exact memcpyAt_outside _ _ _ _ _ (Or.inl hi)
    · intro j hj t ht
      match j, hj with
      | 0, hj =>
        have haddr : k * b.cellSize + t < (k + 1) * b.cellSize := by
          rw [Nat.succ_mul]
          omega
        have h6 := ihh.2.2.2.2.2.1 (k * b.cellSize + t) haddr
        rw [Nat.add_zero]
        rw [h6]
        show memcpyAt b.dataBuffer (b.indexInput % (b.numberOfCell * b.cellSize))
          c b.cellSize (k * b.cellSize + t) = _
        rw [hmod]
        exact memcpyAt_inside _ _ _ _ _ ht
      | j + 1, hj =>
        have hj' : j < cs.length := by
          omega
        have h7 := ihh.2.2.2.2.2.2 j hj' t ht
        have haddr : k + (j + 1) = k + 1 + j := by omega
        rw [haddr]
        exact h7

/-- Popping from a buffer whose read window has not wrapped reads the
cell at byte offset `r * cellSize` and advances `indexOutput`. -/
theorem popFront_step (b : network_ringBuffer_t) (r m : Nat)
    (hs : 0 < b.cellSize) (hout : b.indexOutput = r * b.cellSize)
    (hin : b.indexInput = m * b.cellSize) (hrm : r < m)
    (hrn : r < b.numberOfCell) :
    NETWORK_RingBuffPopFront b true =
      (NETWORK_OK, { b with indexOutput := b.indexOutput + b.cellSize },
        some (readCell b (r * b.cellSize))) := by
  have hne : b.indexInput ≠ b.indexOutput := by
    rw [hin, hout]
    intro hcon
    have := Nat.eq_of_mul_eq_mul_right hs hcon
    omega
  rw [popFront_nonempty_eq b true hne, hout,
    mul_mod_capacity r _ _ hrn hs]
  rfl

/-- Popping `k` cells from a buffer whose read window stays inside the
first lap of the storage returns the `k` cells at consecutive
cell-aligned offsets, each with a success code. -/
theorem popList_spec (k : Nat) : ∀ (b : network_ringBuffer_t) (r m : Nat),
    0 < b.cellSize → b.indexOutput = r * b.cellSize →
    b.indexInput = m * b.cellSize → r + k ≤ m → m ≤ b.numberOfCell →
    popList b k = (List.range k).map
      (fun j => ((NETWORK_OK : eNETWORK_Error),
        some (readCell b ((r + j) * b.cellSize)))) := by
  induction k with
  | zero => intro b r m _ _ _ _ _; rfl
  | succ k ih =>
    intro b r m hs hout hin hrk hm
    have hstep := popFront_step b r m hs hout hin (by omega) (by omega)
    simp only [popList, hstep]
    set B2 : network_ringBuffer_t :=
      { b with indexOutput := b.indexOutput + b.cellSize } with hB2
    have hout2 : B2.indexOutput = (r + 1) * B2.cellSize := by
      show b.indexOutput + b.cellSize = (r + 1) * b.cellSize
      rw [hout, Nat.succ_mul]
    have ihh : popList B2 k = (List.range k).map
        (fun j => ((NETWORK_OK : eNETWORK_Error),
          some (readCell b ((r + 1 + j) * b.cellSize)))) :=
      ih B2 (r + 1) m hs hout2 hin (by omega) hm
    rw [ihh, List.range_succ_eq_map, List.map_cons, List.map_map]
    refine congrArg₂ List.cons ?_ ?_
    · show ((NETWORK_OK : eNETWORK_Error), some (readCell b (r * b.cellSize))) =
        ((NETWORK_OK : eNETWORK_Error), some (readCell b ((r + 0) * b.cellSize)))
      rw [Nat.add_zero]
    · exact congrArg (fun φ => List.map φ (List.range k)) (funext fun j => by
        rw [(by omega : r + 1 + j = r + (j + 1))]
        rfl)

/-- C2: pushing `N ≤ cellCount` cells into a fresh non-overwriting
buffer and then popping `N` times succeeds on every operation and
returns the `N` cells byte-identical and in push order (the `N = 1`
instance is the push/pop round trip). -/
theorem ringBuffer_fifo_round_trip (n s : Nat) (init : Nat → Nat)
    (cs : List (Nat → Nat)) (hn : 0 < n) (hs : 0 < s)
    (hlen : cs.length ≤ n) :
    (pushAll (NETWORK_NewRingBuffer n s init) cs).1 =
      List.replicate cs.length NETWORK_OK ∧
    popList (pushAll (NETWORK_NewRingBuffer n s init) cs).2 cs.length =
      cs.map (fun c => ((NETWORK_OK : eNETWORK_Error),
        some (cellBytes c s))) := by
  have hp := pushAll_spec cs (NETWORK_NewRingBuffer n s init) 0 hs rfl
    (Nat.zero_mul _).symm (by show 0 + cs.length ≤ n; omega)
  obtain ⟨herr, hnc, hcs, hout, hin, hframe, hcells⟩ := hp
  refine ⟨herr, ?_⟩
  set bf := (pushAll (NETWORK_NewRingBuffer n s init) cs).2 with hbf
  have hpop := popList_spec cs.length bf 0 cs.length
    (by rw [hcs]; exact hs)
    (by rw [hout, Nat.zero_mul])
    (by rw [hin, hcs, Nat.zero_add])
    (by omega)
    (by rw [hnc]; exact hlen)
  rw [hpop]
  apply List.ext_get
  · simp
  · intro i h1 h2
    have hi : i < cs.length := by simpa using h2
    simp only [List.get_map, List.get_range]
    refine congrArg (fun l => ((NETWORK_OK : eNETWORK_Error), some l)) ?_
    show readCell bf ((0 + i) * bf.cellSize) = cellBytes (cs.get ⟨i, hi⟩) s
    unfold readCell cellBytes
    rw [hcs]
    apply List.ext_get
    · simp only [List.length_map, List.length_range]
      rfl
    · intro t ht1 ht2
      simp only [List.get_map, List.get_range]
      exact hcells i hi t (by simpa using ht1)

/-- Witness for C2: two cells through a fresh 2-cell, 2-byte buffer. -/
theorem ringBuffer_fifo_round_trip_witness :
    (pushAll (NETWORK_NewRingBuffer 2 2 (fun _ => 0)) [cellA, cellB]).1 =
      List.replicate [cellA, cellB].length NETWORK_OK ∧
    popList (pushAll (NETWORK_NewRingBuffer 2 2 (fun _ => 0)) [cellA, cellB]).2
        [cellA, cellB].length =
      [cellA, cellB].map (fun c => ((NETWORK_OK : eNETWORK_Error),
        some (cellBytes c 2))) :=
  ringBuffer_fifo_round_trip 2 2 (fun _ => 0) [cellA, cellB]
    (by decide) (by decide) (by decide)
